import Mathlib

/-!
The entry store of tmpo (`internal/storage/db.go`)

A shallow embedding of the storage layer of the tmpo time tracker and the
properties of its entry lifecycle.

Modelling decisions, all visible in the definitions below:

* The SQLite table `time_entries` is a list of rows in rowid order together
  with the AUTOINCREMENT counter that SQLite keeps in `sqlite_sequence`.
* `time.Now()` is an explicit argument `now` of the operations that read the
  clock.  A clock reading carries the instant it denotes and the text under
  which the sqlite3 driver stores it in a DATETIME column (the local wall clock
  followed by the UTC offset in force).  Go compares instants; SQLite's
  `ORDER BY start_time` compares the stored texts.
* The column `description` is declared nullable, but the only statement of the
  store that writes it binds a Go `string`, so stored values are never NULL and
  the row type records a plain string.
* Go's `(*TimeEntry, error)` results are `Except Error TimeEntry`; the
  `(nil, nil)` result of `GetRunningEntry` is `Except.ok none`.
* The storage medium itself does not fail: the only failing statement that is
  modelled is an INSERT once the AUTOINCREMENT id space is exhausted.
-/

namespace Storage

/-- A reading of `time.Now()` as the store uses it: `instant` is the point on the
time axis it denotes (seconds since the Unix epoch), which is what Go compares
and what a `Scan` of the column gives back; `text` is what the sqlite3 driver
binds for it and SQLite stores in a DATETIME column, namely the reading
formatted as `2006-01-02 15:04:05.999999999-07:00`, the wall clock of the
machine's time zone followed by its UTC offset.  The driver is not part of the
repository: its rendering comes with the reading, and no relation between the
two fields is assumed. -/
structure Time where
  instant : Nat
  text : String
deriving DecidableEq, Repr

/-- Largest value of a Go `int64`, which is also the largest SQLite rowid. -/
def maxInt64 : Int := 9223372036854775807

/-- Errors of the store.  `wrap msg e` is `fmt.Errorf(msg ++ "%w", e)`. -/
inductive Error where
  | ErrNoRows : Error
  | SQLITE_FULL : Error
  | os (msg : String) : Error
  | wrap (msg : String) (inner : Error) : Error
deriving DecidableEq, Repr

deriving instance DecidableEq for Except

/-- A row of the table `time_entries`, columns as in the CREATE TABLE statement
of `Initialize`. -/
structure Row where
  id : Int
  project_name : String
  start_time : Time
  end_time : Option Time
  description : String
deriving DecidableEq, Repr

/-- Modelled from the spec: the declaration of the struct `TimeEntry` is not
among the source files.  Its fields are the ones the `Scan` calls of `db.go`
assign (`ID`, `ProjectName`, `StartTime`, `EndTime`, `Description`), typed as in
section 3 of the specification; `EndTime` is a pointer that stays nil while the
entry is running. -/
structure TimeEntry where
  ID : Int
  ProjectName : String
  StartTime : Time
  EndTime : Option Time
  Description : String
deriving DecidableEq, Repr

/-- The store: the rows of `time_entries` in rowid order and the largest id the
AUTOINCREMENT column has handed out so far (`sqlite_sequence`). -/
structure Database where
  rows : List Row
  seq : Int
deriving DecidableEq, Repr

/-- The store right after `Initialize` has created the table. -/
def Database.fresh : Database := ⟨[], 0⟩

/-- `Scan(&entry.ID, &entry.ProjectName, &entry.StartTime, &endTime,
&entry.Description)` followed by `if endTime.Valid { entry.EndTime = ... }`. -/
def scan (r : Row) : TimeEntry :=
  { ID := r.id
    ProjectName := r.project_name
    StartTime := r.start_time
    EndTime := r.end_time
    Description := r.description }

/-- The largest rowid present in the table (0 for an empty table). -/
def maxRowid (rows : List Row) : Int :=
  rows.foldr (fun r m => max r.id m) 0

/-- The largest id that is in use or was ever handed out. -/
def lastId (d : Database) : Int := max d.seq (maxRowid d.rows)

/-- The id an `INTEGER PRIMARY KEY AUTOINCREMENT` column assigns to the next
inserted row: one more than the largest id ever used (the larger of the
`sqlite_sequence` counter and the largest rowid in the table); no id is left
once the largest possible rowid has been reached, and the INSERT then fails
with SQLITE_FULL. -/
def nextId (d : Database) : Option Int :=
  if lastId d < maxInt64 then some (lastId d + 1) else none

/-- `SELECT ... FROM time_entries WHERE id = ?` read by `QueryRow(...).Scan`:
the first matching row, or `sql.ErrNoRows`. -/
def queryRowById (d : Database) (id : Int) : Except Error Row :=
  match d.rows.find? (fun r => decide (r.id = id)) with
  | some r => .ok r
  | none => .error .ErrNoRows

/-- `func (d *Database) GetEntry(id int64) (*TimeEntry, error)`. -/
def GetEntry (d : Database) (id : Int) : Except Error TimeEntry :=
  match queryRowById d id with
  | .error err => .error (.wrap "failed to get entry: " err)
  | .ok r => .ok (scan r)

/-- `func (d *Database) CreateEntry(projectName, description string)
(*TimeEntry, error)`: the INSERT leaves `end_time` NULL, `LastInsertId` is the
id the column assigned, and the result is re-read with `GetEntry`. -/
def CreateEntry (d : Database) (now : Time) (projectName description : String) :
    Database × Except Error TimeEntry :=
  match nextId d with
  | none => (d, .error (.wrap "Failed to create entry: " .SQLITE_FULL))
  | some id =>
    let d1 : Database :=
      { rows := d.rows ++ [⟨id, projectName, now, none, description⟩]
        seq := id }
    (d1, GetEntry d1 id)

/-- SQLite's comparison of two TEXT values under the default BINARY collation:
character by character, a proper initial segment sorting first. -/
def textLE : List Char → List Char → Bool
  | [], _ => true
  | _ :: _, [] => false
  | a :: as, b :: bs =>
    if a.toNat < b.toNat then true
    else if b.toNat < a.toNat then false
    else textLE as bs

/-- The order of `ORDER BY start_time DESC`: the row whose stored `start_time`
text sorts higher comes first. -/
def startTimeDesc (a b : Row) : Prop :=
  textLE b.start_time.text.data a.start_time.text.data = true

instance : DecidableRel startTimeDesc :=
  fun a b =>
    inferInstanceAs (Decidable (textLE b.start_time.text.data a.start_time.text.data = true))

/-- The rows selected by `WHERE end_time IS NULL`. -/
def running (d : Database) : List Row :=
  d.rows.filter (fun r => r.end_time.isNone)

/-- `func (d *Database) GetRunningEntry() (*TimeEntry, error)`:
`WHERE end_time IS NULL ORDER BY start_time DESC LIMIT 1`; no row is the
`sql.ErrNoRows` branch, which returns `nil, nil`. -/
def GetRunningEntry (d : Database) : Except Error (Option TimeEntry) :=
  match ((running d).insertionSort startTimeDesc).head? with
  | none => .ok none
  | some r => .ok (some (scan r))

/-- `func (d *Database) StopEntry(id int64) error`:
`UPDATE time_entries SET end_time = ? WHERE id = ?` with `time.Now()`; the
second component is the returned error (`none` is nil). -/
def StopEntry (d : Database) (now : Time) (id : Int) : Database × Option Error :=
  ({ d with rows := d.rows.map (fun r => if r.id = id then { r with end_time := some now } else r) },
   none)

/-- The single-running-entry invariant: at most one row has `end_time` NULL. -/
def atMostOneRunning (d : Database) : Prop := (running d).length ≤ 1

instance (d : Database) : Decidable (atMostOneRunning d) :=
  inferInstanceAs (Decidable ((running d).length ≤ 1))

/-- The PRIMARY KEY constraint on `id`: no two rows share an id. -/
def primaryKey (d : Database) : Prop := (d.rows.map (fun r : Row => r.id)).Nodup

instance (d : Database) : Decidable (primaryKey d) :=
  inferInstanceAs (Decidable ((d.rows.map (fun r : Row => r.id)).Nodup))

/-- One call of a lifecycle operation of the store, with the value the clock
has when the call reads it. -/
inductive Op where
  | create (now : Time) (projectName description : String) : Op
  | stop (now : Time) (id : Int) : Op
deriving DecidableEq, Repr

/-- The store after one lifecycle operation. -/
def Op.apply (d : Database) : Op → Database
  | .create now projectName description => (CreateEntry d now projectName description).1
  | .stop now id => (StopEntry d now id).1

/-- The store after a sequence of lifecycle operations. -/
def run (d : Database) (ops : List Op) : Database := ops.foldl Op.apply d

/-- `CreateEntry` for each (clock value, project name, description) in turn,
collecting the returned entries; the first failing call ends the sequence with
its error. -/
def createAll : Database → List (Time × String × String) →
    Except Error (Database × List TimeEntry)
  | d, [] => .ok (d, [])
  | d, (now, projectName, description) :: rest =>
    match CreateEntry d now projectName description with
    | (_, .error err) => .error err
    | (d1, .ok e) =>
      match createAll d1 rest with
      | .error err => .error err
      | .ok (d2, es) => .ok (d2, e :: es)

/-- `StopEntry` for each (clock value, id) in turn. -/
def stopAll : Database → List (Time × Int) → Database
  | d, [] => d
  | d, (now, id) :: rest => stopAll (StopEntry d now id).1 rest

/-- One start with its matching stop: the arguments of the `CreateEntry` call
and the clock values read by the start and by the stop. -/
structure Session where
  startAt : Time
  projectName : String
  description : String
  stopAt : Time
deriving DecidableEq, Repr

/-- What is observed during one start/stop pair: the entry the start returned,
and the result of `GetRunningEntry` right after the start and right after the
stop. -/
structure Round where
  started : TimeEntry
  afterStart : Except Error (Option TimeEntry)
  afterStop : Except Error (Option TimeEntry)
deriving DecidableEq, Repr

/-- Strictly alternating use of the store: each session starts an entry and then
stops the entry whose id the start returned.  A start that fails returns no id,
so there is no matching stop and the sequence ends there. -/
def alternate : Database → List Session → List Round
  | _, [] => []
  | d, s :: rest =>
    match CreateEntry d s.startAt s.projectName s.description with
    | (_, .error _) => []
    | (d1, .ok e) =>
      let d2 := (StopEntry d1 s.stopAt e.ID).1
      ⟨e, GetRunningEntry d1, GetRunningEntry d2⟩ :: alternate d2 rest

/-- What `Initialize` meets on the machine it runs on: the results of the
library calls it makes and the content of the database file it opens. -/
structure Host where
  userHomeDir : Except Error String
  join : String → String → String
  mkdirAll : String → Nat → Option Error
  sqlOpen : String → String → Option Error
  createTable : Option Error
  stored : Database

/-- The calls by which `Initialize` touches the machine, with their arguments. -/
inductive SysCall where
  | MkdirAll (path : String) (perm : Nat) : SysCall
  | Open (driverName dataSourceName : String) : SysCall
  | Exec (query : String) : SysCall
deriving DecidableEq, Repr

/-- The statement `Initialize` executes to ensure the schema. -/
def createTableStmt : String :=
  "CREATE TABLE IF NOT EXISTS time_entries (id INTEGER PRIMARY KEY AUTOINCREMENT, project_name TEXT NOT NULL, start_time DATETIME NOT NULL, end_time DATETIME, description TEXT)"

/-- `func Initialize() (*Database, error)`: the calls it makes, in order, and its
result. -/
def Initialize (h : Host) : List SysCall × Except Error Database :=
  match h.userHomeDir with
  | .error err => ([], .error (.wrap "failed to get home directory: " err))
  | .ok homeDir =>
    let tmpoDir := h.join homeDir ".tmpo"
    match h.mkdirAll tmpoDir 0o755 with
    | some err =>
      ([.MkdirAll tmpoDir 0o755], .error (.wrap "failed to create .tmpo directory: " err))
    | none =>
      let dbPath := h.join tmpoDir "tmpo.db"
      match h.sqlOpen "sqlite3" dbPath with
      | some err =>
        ([.MkdirAll tmpoDir 0o755, .Open "sqlite3" dbPath],
          .error (.wrap "failed to open database: " err))
      | none =>
        match h.createTable with
        | some err =>
          ([.MkdirAll tmpoDir 0o755, .Open "sqlite3" dbPath, .Exec createTableStmt],
            .error (.wrap "failed to create table: " err))
        | none =>
          ([.MkdirAll tmpoDir 0o755, .Open "sqlite3" dbPath, .Exec createTableStmt],
            .ok h.stored)

/-- A machine on which every call of `Initialize` succeeds and the database
file is new. -/
def Host.plain : Host :=
  { userHomeDir := .ok "/home/dev"
    join := fun a b => a ++ "/" ++ b
    mkdirAll := fun _ _ => none
    sqlOpen := fun _ _ => none
    createTable := none
    stored := Database.fresh }

/-- The clock read at 09:00:00 UTC on 2 November 2026. -/
def c0900 : Time := ⟨1793610000, "2026-11-02 09:00:00+00:00"⟩

/-- The clock read at 09:05:00 UTC on 2 November 2026. -/
def c0905 : Time := ⟨1793610300, "2026-11-02 09:05:00+00:00"⟩

/-- The clock read at 09:10:00 UTC on 2 November 2026. -/
def c0910 : Time := ⟨1793610600, "2026-11-02 09:10:00+00:00"⟩

/-- The clock read at 09:15:00 UTC on 2 November 2026. -/
def c0915 : Time := ⟨1793610900, "2026-11-02 09:15:00+00:00"⟩

/-- The clock read in the zone America/New_York at 01:30:00 on 1 November 2026
while daylight saving time is still in force (UTC-4): 05:30:00 UTC. -/
def edt0130 : Time := ⟨1793511000, "2026-11-01 01:30:00-04:00"⟩

/-- The clock read in the same zone forty minutes later, after the clocks have
gone back one hour at 02:00 (UTC-5): 01:10:00 local time, 06:10:00 UTC. -/
def est0110 : Time := ⟨1793513400, "2026-11-01 01:10:00-05:00"⟩

/-! ## Lookup by id -/

theorem le_maxRowid {rows : List Row} {r : Row} (h : r ∈ rows) : r.id ≤ maxRowid rows := by
  induction rows with
  | nil => cases h
  | cons a l ih =>
    simp only [maxRowid, List.foldr_cons] at ih ⊢
    rcases List.mem_cons.1 h with rfl | h
    · exact le_max_left _ _
    · exact le_trans (ih h) (le_max_right _ _)

theorem maxRowid_nonneg (rows : List Row) : 0 ≤ maxRowid rows := by
  induction rows with
  | nil => simp [maxRowid]
  | cons a l ih =>
    simp only [maxRowid, List.foldr_cons] at ih ⊢
    exact le_trans ih (le_max_right _ _)

theorem maxRowid_append_singleton (rows : List Row) (x : Row) (hx : 0 ≤ x.id) :
    maxRowid (rows ++ [x]) = max (maxRowid rows) x.id := by
  induction rows with
  | nil => simp [maxRowid, hx]
  | cons a l ih =>
    simp only [maxRowid, List.foldr_cons, List.cons_append] at ih ⊢
    rw [ih, max_assoc]

theorem nextId_eq_some {d : Database} {id : Int} (h : nextId d = some id) :
    lastId d < maxInt64 ∧ id = lastId d + 1 := by
  unfold nextId at h
  split at h
  · rename_i hlt
    exact ⟨hlt, by simpa using h.symm⟩
  · cases h

theorem nextId_of_lt {d : Database} (h : lastId d < maxInt64) :
    nextId d = some (lastId d + 1) := by
  simp [nextId, h]

theorem nextId_eq_none {d : Database} (h : nextId d = none) : maxInt64 ≤ lastId d := by
  unfold nextId at h
  split at h
  · cases h
  · rename_i hlt
    exact not_lt.1 hlt

theorem nextId_unused {d : Database} {id : Int} (h : nextId d = some id) :
    ∀ r ∈ d.rows, r.id ≠ id := by
  intro r hr heq
  have h1 := (nextId_eq_some h).2
  have h2 : r.id ≤ lastId d := le_trans (le_maxRowid hr) (le_max_right _ _)
  omega

theorem find_id_none {rows : List Row} {id : Int} (h : ∀ r ∈ rows, r.id ≠ id) :
    rows.find? (fun r => decide (r.id = id)) = none := by
  rw [List.find?_eq_none]
  intro r hr
  simpa using h r hr

theorem GetEntry_eq_ok {d : Database} {id : Int} {e : TimeEntry} :
    GetEntry d id = .ok e ↔
      ∃ r, d.rows.find? (fun r => decide (r.id = id)) = some r ∧ scan r = e := by
  unfold GetEntry queryRowById
  cases hf : d.rows.find? (fun r => decide (r.id = id)) with
  | none => simp
  | some r => simp

theorem GetEntry_eq_error {d : Database} {id : Int} :
    (∃ err, GetEntry d id = .error err) ↔ ∀ r ∈ d.rows, r.id ≠ id := by
  unfold GetEntry queryRowById
  cases hf : d.rows.find? (fun r => decide (r.id = id)) with
  | none =>
    refine ⟨fun _ r hr => ?_, fun _ => ⟨_, rfl⟩⟩
    simpa using (List.find?_eq_none.1 hf) r hr
  | some r =>
    have hmem := List.mem_of_find?_eq_some hf
    have hid : r.id = id := by simpa using List.find?_some hf
    refine ⟨fun ⟨err, h⟩ => ?_, fun h => absurd hid (h r hmem)⟩
    cases h

/-! ## The effect of `CreateEntry` and `StopEntry` -/

/-- The row an INSERT of `CreateEntry` adds. -/
theorem CreateEntry_of_nextId {d : Database} {id : Int} (h : nextId d = some id)
    (now : Time) (p desc : String) :
    CreateEntry d now p desc =
      (⟨d.rows ++ [⟨id, p, now, none, desc⟩], id⟩, .ok ⟨id, p, now, none, desc⟩) := by
  have hfind : (d.rows ++ [(⟨id, p, now, none, desc⟩ : Row)]).find?
      (fun r => decide (r.id = id)) = some ⟨id, p, now, none, desc⟩ := by
    rw [List.find?_append, find_id_none (nextId_unused h)]
    simp
  simp only [CreateEntry, h, GetEntry, queryRowById, hfind, scan]

theorem CreateEntry_of_full {d : Database} (h : nextId d = none) (now : Time)
    (p desc : String) :
    CreateEntry d now p desc = (d, .error (.wrap "Failed to create entry: " .SQLITE_FULL)) := by
  simp only [CreateEntry, h]

theorem CreateEntry_ok_iff {d : Database} {now : Time} {p desc : String} {d1 : Database}
    {e : TimeEntry} :
    CreateEntry d now p desc = (d1, .ok e) ↔
      ∃ id, nextId d = some id ∧ d1 = ⟨d.rows ++ [⟨id, p, now, none, desc⟩], id⟩ ∧
        e = ⟨id, p, now, none, desc⟩ := by
  cases h : nextId d with
  | none => simp [CreateEntry_of_full h]
  | some id =>
    rw [CreateEntry_of_nextId h]
    simp only [Prod.mk.injEq, Except.ok.injEq, Option.some.injEq, exists_eq_left']
    constructor
    · rintro ⟨h1, h2⟩
      exact ⟨h1.symm, h2.symm⟩
    · rintro ⟨h1, h2⟩
      exact ⟨h1.symm, h2.symm⟩

theorem lastId_after_create {d : Database} {id : Int} (h : nextId d = some id)
    (now : Time) (p desc : String) :
    lastId ⟨d.rows ++ [⟨id, p, now, none, desc⟩], id⟩ = lastId d + 1 := by
  have h1 := (nextId_eq_some h).2
  have h2 : maxRowid d.rows ≤ lastId d := le_max_right _ _
  have h3 := maxRowid_nonneg d.rows
  have hid : 0 ≤ id := by omega
  simp only [lastId] at h1 ⊢
  rw [maxRowid_append_singleton _ _ hid]
  simp only [lastId] at h2
  dsimp only
  omega

theorem running_append (d : Database) (x : Row) (seq : Int) :
    running ⟨d.rows ++ [x], seq⟩ = running d ++ (if x.end_time.isNone then [x] else []) := by
  simp only [running, List.filter_append, List.filter_cons, List.filter_nil]

theorem running_stop (d : Database) (now : Time) (id : Int) :
    running (StopEntry d now id).1 = (running d).filter (fun r => decide (r.id ≠ id)) := by
  simp only [running, StopEntry]
  induction d.rows with
  | nil => rfl
  | cons a l ih =>
    by_cases ha : a.id = id
    · cases hn : a.end_time <;> simp [List.filter_cons, ha, hn, ih]
    · cases hn : a.end_time <;> simp [List.filter_cons, ha, hn, ih]

theorem rows_stop_of_absent {rows : List Row} {id : Int} (h : ∀ r ∈ rows, r.id ≠ id)
    (now : Time) :
    rows.map (fun r => if r.id = id then { r with end_time := some now } else r) = rows := by
  induction rows with
  | nil => rfl
  | cons a l ih =>
    have ha : a.id ≠ id := h a (List.mem_cons_self _ _)
    have hl : ∀ r ∈ l, r.id ≠ id := fun r hr => h r (List.mem_cons_of_mem _ hr)
    simp only [List.map_cons, if_neg ha, ih hl]

theorem find_stop (rows : List Row) (now : Time) (id k : Int) :
    (rows.map (fun r => if r.id = id then { r with end_time := some now } else r)).find?
        (fun r => decide (r.id = k)) =
      (rows.find? (fun r => decide (r.id = k))).map
        (fun r => if r.id = id then { r with end_time := some now } else r) := by
  induction rows with
  | nil => rfl
  | cons a l ih =>
    have hpres : (if a.id = id then { a with end_time := some now } else a).id = a.id := by
      split <;> rfl
    simp only [List.map_cons, List.find?_cons, hpres]
    cases decide (a.id = k) with
    | true => rfl
    | false => exact ih

theorem GetEntry_create {d : Database} {id : Int} {e : TimeEntry} (h : GetEntry d id = .ok e)
    (now : Time) (p desc : String) :
    GetEntry (CreateEntry d now p desc).1 id = .ok e := by
  cases hn : nextId d with
  | none => rw [CreateEntry_of_full hn]; exact h
  | some k =>
    rw [CreateEntry_of_nextId hn]
    obtain ⟨r, hr, hs⟩ := GetEntry_eq_ok.1 h
    refine GetEntry_eq_ok.2 ⟨r, ?_, hs⟩
    simp [List.find?_append, hr]

theorem GetEntry_stop_same {d : Database} {id : Int} {e : TimeEntry}
    (h : GetEntry d id = .ok e) (now : Time) :
    GetEntry (StopEntry d now id).1 id = .ok { e with EndTime := some now } := by
  obtain ⟨r, hr, hs⟩ := GetEntry_eq_ok.1 h
  have hid : r.id = id := by simpa using List.find?_some hr
  refine GetEntry_eq_ok.2 ⟨{ r with end_time := some now }, ?_, ?_⟩
  · simp only [StopEntry, find_stop, hr, Option.map_some', if_pos hid]
  · subst hs
    simp [scan]

theorem GetEntry_stop_other {d : Database} {id k : Int} (hne : id ≠ k) (now : Time) :
    GetEntry (StopEntry d now id).1 k = GetEntry d k := by
  unfold GetEntry queryRowById
  simp only [StopEntry, find_stop]
  cases hf : d.rows.find? (fun r => decide (r.id = k)) with
  | none => rfl
  | some r =>
    have hid : r.id = k := by simpa using List.find?_some hf
    have : ¬ r.id = id := fun h => hne (h.symm.trans hid)
    simp only [Option.map_some', if_neg this]

theorem CreateEntry_succeeds {d : Database} (h : lastId d < maxInt64) (now : Time)
    (p desc : String) :
    CreateEntry d now p desc =
      (⟨d.rows ++ [⟨lastId d + 1, p, now, none, desc⟩], lastId d + 1⟩,
        .ok ⟨lastId d + 1, p, now, none, desc⟩) :=
  CreateEntry_of_nextId (nextId_of_lt h) now p desc

/-! ## The running entry -/

theorem mem_running {d : Database} {r : Row} :
    r ∈ running d ↔ r ∈ d.rows ∧ r.end_time = none := by
  simp [running, List.mem_filter, Option.isNone_iff_eq_none]

theorem running_eq_nil {d : Database} :
    running d = [] ↔ ∀ r ∈ d.rows, r.end_time ≠ none := by
  rw [List.eq_nil_iff_forall_not_mem]
  constructor
  · intro h r hr hn
    exact h r (mem_running.2 ⟨hr, hn⟩)
  · intro h r hr
    exact h r (mem_running.1 hr).1 (mem_running.1 hr).2

theorem GetRunningEntry_of_none {d : Database} (h : running d = []) :
    GetRunningEntry d = .ok none := by
  simp [GetRunningEntry, h]

theorem GetRunningEntry_of_single {d : Database} {r : Row} (h : running d = [r]) :
    GetRunningEntry d = .ok (some (scan r)) := by
  simp [GetRunningEntry, h]

theorem textLE_total (a b : List Char) : textLE a b = true ∨ textLE b a = true := by
  induction a generalizing b with
  | nil => exact Or.inl (by simp [textLE])
  | cons x xs ih =>
    cases b with
    | nil => exact Or.inr (by simp [textLE])
    | cons y ys =>
      simp only [textLE]
      by_cases h1 : x.toNat < y.toNat
      · simp [h1]
      · by_cases h2 : y.toNat < x.toNat
        · simp [h2]
        · simp only [h1, h2, if_false]
          exact ih ys

theorem textLE_trans {a b c : List Char} (hab : textLE a b = true) (hbc : textLE b c = true) :
    textLE a c = true := by
  induction a generalizing b c with
  | nil => simp [textLE]
  | cons x xs ih =>
    cases b with
    | nil => simp [textLE] at hab
    | cons y ys =>
      cases c with
      | nil => simp [textLE] at hbc
      | cons z zs =>
        simp only [textLE] at hab hbc ⊢
        by_cases h1 : x.toNat < y.toNat
        · by_cases h3 : y.toNat < z.toNat
          · have : x.toNat < z.toNat := by omega
            simp [this]
          · by_cases h4 : z.toNat < y.toNat
            · simp [h3, h4] at hbc
            · have : x.toNat < z.toNat := by omega
              simp [this]
        · by_cases h2 : y.toNat < x.toNat
          · simp [h1, h2] at hab
          · simp only [h1, h2, if_false] at hab
            by_cases h3 : y.toNat < z.toNat
            · have : x.toNat < z.toNat := by omega
              simp [this]
            · by_cases h4 : z.toNat < y.toNat
              · simp [h3, h4] at hbc
              · simp only [h3, h4, if_false] at hbc
                have e1 : ¬ x.toNat < z.toNat := by omega
                have e2 : ¬ z.toNat < x.toNat := by omega
                simp only [e1, e2, if_false]
                exact ih hab hbc

theorem textLE_refl (a : List Char) : textLE a a = true := by
  rcases textLE_total a a with h | h <;> exact h

/-- With a running row present, `GetRunningEntry` returns a running row whose
stored `start_time` text is highest in SQLite's text order. -/
theorem GetRunningEntry_of_some {d : Database} (h : running d ≠ []) :
    ∃ r ∈ running d, GetRunningEntry d = .ok (some (scan r)) ∧
      ∀ q ∈ running d, textLE q.start_time.text.data r.start_time.text.data = true := by
  haveI : IsTotal Row startTimeDesc := ⟨fun a b => textLE_total _ _⟩
  haveI : IsTrans Row startTimeDesc := ⟨fun _ _ _ hab hbc => textLE_trans hbc hab⟩
  have hperm := List.perm_insertionSort startTimeDesc (running d)
  have hsorted := List.sorted_insertionSort startTimeDesc (running d)
  cases hs : (running d).insertionSort startTimeDesc with
  | nil =>
    rw [hs] at hperm
    exact absurd hperm.symm.eq_nil h
  | cons r tl =>
    rw [hs] at hperm hsorted
    refine ⟨r, hperm.mem_iff.1 (List.mem_cons_self _ _), ?_, ?_⟩
    · simp [GetRunningEntry, hs]
    · intro q hq
      rcases List.mem_cons.1 (hperm.mem_iff.2 hq) with rfl | hq
      · exact textLE_refl _
      · exact List.rel_of_sorted_cons hsorted q hq

/-- What `GetRunningEntry` does on every store: nil without error when no row is
running; otherwise, without error, a running row of the store whose stored
`start_time` text is highest among the running rows; and that row is the most
recently started one whenever the stored texts of the running rows are ordered
as their instants are. -/
theorem GetRunningEntry_highest_text (d : Database) :
    ((∀ r ∈ d.rows, r.end_time ≠ none) → GetRunningEntry d = .ok none) ∧
      ((∃ r ∈ d.rows, r.end_time = none) →
        ∃ r ∈ d.rows, r.end_time = none ∧ GetRunningEntry d = .ok (some (scan r)) ∧
          (∀ q ∈ d.rows, q.end_time = none →
            textLE q.start_time.text.data r.start_time.text.data = true) ∧
          ((∀ a ∈ running d, ∀ b ∈ running d,
              textLE a.start_time.text.data b.start_time.text.data = true →
                a.start_time.instant ≤ b.start_time.instant) →
            ∀ q ∈ d.rows, q.end_time = none →
              q.start_time.instant ≤ r.start_time.instant)) := by
  refine ⟨fun h => GetRunningEntry_of_none (running_eq_nil.2 h), ?_⟩
  rintro ⟨r0, hr0, hn0⟩
  have hne : running d ≠ [] := List.ne_nil_of_mem (mem_running.2 ⟨hr0, hn0⟩)
  obtain ⟨r, hr, hget, hmax⟩ := GetRunningEntry_of_some hne
  exact ⟨r, (mem_running.1 hr).1, (mem_running.1 hr).2, hget,
    fun q hq hn => hmax q (mem_running.2 ⟨hq, hn⟩),
    fun hagree q hq hn =>
      hagree q (mem_running.2 ⟨hq, hn⟩) r hr (hmax q (mem_running.2 ⟨hq, hn⟩))⟩

/-! ## Sequences of operations -/

theorem maxRowid_stop (rows : List Row) (now : Time) (id : Int) :
    maxRowid (rows.map (fun r => if r.id = id then { r with end_time := some now } else r)) =
      maxRowid rows := by
  induction rows with
  | nil => rfl
  | cons a l ih =>
    have hpres : (if a.id = id then { a with end_time := some now } else a).id = a.id := by
      split <;> rfl
    simp only [maxRowid, List.map_cons, List.foldr_cons, hpres] at ih ⊢
    rw [ih]

theorem lastId_stop (d : Database) (now : Time) (id : Int) :
    lastId (StopEntry d now id).1 = lastId d := by
  simp only [lastId, StopEntry, maxRowid_stop]

theorem length_stop (d : Database) (now : Time) (id : Int) :
    (StopEntry d now id).1.rows.length = d.rows.length := by
  simp only [StopEntry, List.length_map]

/-- Fields other than `end_time` of an existing entry survive every sequence of
lifecycle operations. -/
theorem GetEntry_run {d : Database} {id : Int} {e : TimeEntry} (h : GetEntry d id = .ok e)
    (ops : List Op) :
    ∃ e1, GetEntry (run d ops) id = .ok e1 ∧ e1.ID = e.ID ∧ e1.ProjectName = e.ProjectName ∧
      e1.StartTime = e.StartTime ∧ e1.Description = e.Description := by
  induction ops generalizing d e with
  | nil => exact ⟨e, h, rfl, rfl, rfl, rfl⟩
  | cons op rest ih =>
    simp only [run, List.foldl_cons]
    cases op with
    | create now p desc =>
      exact ih (GetEntry_create h now p desc)
    | stop now k =>
      by_cases hk : k = id
      · subst hk
        obtain ⟨e1, h1, h2, h3, h4, h5⟩ := ih (GetEntry_stop_same h now)
        exact ⟨e1, h1, h2, h3, h4, h5⟩
      · have h0 : GetEntry (Op.apply d (.stop now k)) id = .ok e := by
          simp only [Op.apply, GetEntry_stop_other hk, h]
        exact ih h0

theorem length_stopAll (stops : List (Time × Int)) (d : Database) :
    (stopAll d stops).rows.length = d.rows.length := by
  induction stops generalizing d with
  | nil => rfl
  | cons s rest ih =>
    obtain ⟨now, id⟩ := s
    simp only [stopAll, ih, length_stop]

theorem stopAll_stopped (stops : List (Time × Int)) (d : Database) :
    ∀ q ∈ (stopAll d stops).rows,
      (q.id ∈ stops.map Prod.snd → q.end_time ≠ none) ∧
        ∃ r ∈ d.rows, r.id = q.id ∧ (r.end_time ≠ none → q.end_time ≠ none) := by
  induction stops generalizing d with
  | nil =>
    intro q hq
    exact ⟨fun h => (by cases h), q, hq, rfl, fun h => h⟩
  | cons s rest ih =>
    obtain ⟨now, id⟩ := s
    intro q hq
    obtain ⟨hrest, r1, hr1, hid1, hkeep1⟩ := ih (StopEntry d now id).1 q hq
    simp only [StopEntry, List.mem_map] at hr1
    obtain ⟨r, hr, hfr⟩ := hr1
    by_cases hrid : r.id = id
    · rw [if_pos hrid] at hfr
      have hq1 : q.end_time ≠ none := hkeep1 (by rw [← hfr]; simp)
      refine ⟨fun _ => hq1, r, hr, ?_, fun _ => hq1⟩
      rw [← hid1, ← hfr]
    · rw [if_neg hrid] at hfr
      subst hfr
      refine ⟨fun hmem => ?_, r, hr, hid1, hkeep1⟩
      simp only [List.map_cons, List.mem_cons] at hmem
      rcases hmem with hmem | hmem
      · exact absurd (hid1.trans hmem) hrid
      · exact hrest hmem

theorem createAll_spec (ps : List (Time × String × String)) (d : Database)
    (hroom : lastId d + ps.length ≤ maxInt64) :
    ∃ d1 es, createAll d ps = .ok (d1, es) ∧ es.length = ps.length ∧
      d1.rows.length = d.rows.length + ps.length ∧
      (∀ r ∈ d1.rows, r ∈ d.rows ∨ r.id ∈ es.map TimeEntry.ID) ∧
      es.map (fun e => (e.StartTime, e.ProjectName, e.Description)) = ps ∧
      ∀ e ∈ es, e.EndTime = none := by
  induction ps generalizing d with
  | nil => exact ⟨d, [], rfl, rfl, rfl, fun r hr => Or.inl hr, rfl, fun e he => (by cases he)⟩
  | cons a rest ih =>
    obtain ⟨now, p, desc⟩ := a
    simp only [List.length_cons, Nat.cast_add, Nat.cast_one] at hroom
    have hlt : lastId d < maxInt64 := by omega
    have hn := nextId_of_lt hlt
    have hc := CreateEntry_of_nextId hn now p desc
    have hl := lastId_after_create hn now p desc
    obtain ⟨d2, es, h1, h2, h3, h4, h5, h6⟩ :=
      ih ⟨d.rows ++ [⟨lastId d + 1, p, now, none, desc⟩], lastId d + 1⟩ (by omega)
    refine ⟨d2, ⟨lastId d + 1, p, now, none, desc⟩ :: es, ?_, ?_, ?_, ?_, ?_, ?_⟩
    · simp only [createAll, hc, h1]
    · simp only [List.length_cons, h2]
    · rw [h3]
      dsimp only
      rw [List.length_append, List.length_singleton, List.length_cons]
      omega
    · intro r hr
      rcases h4 r hr with h | h
      · rcases List.mem_append.1 h with h | h
        · exact Or.inl h
        · right
          simp only [List.mem_singleton] at h
          simp [h]
      · right
        simp only [List.map_cons, List.mem_cons]
        exact Or.inr h
    · simp only [List.map_cons, h5]
    · intro e he
      rcases List.mem_cons.1 he with rfl | he
      · rfl
      · exact h6 e he

theorem alternate_spec (ss : List Session) (d : Database) (hidle : running d = []) :
    (∀ rd ∈ alternate d ss, rd.afterStart = .ok (some rd.started) ∧ rd.afterStop = .ok none) ∧
      (lastId d + ss.length ≤ maxInt64 → (alternate d ss).length = ss.length) := by
  induction ss generalizing d with
  | nil => exact ⟨fun rd h => (by cases h), fun _ => rfl⟩
  | cons s rest ih =>
    cases hn : nextId d with
    | none =>
      have hfull := nextId_eq_none hn
      refine ⟨?_, ?_⟩
      · intro rd h
        simp only [alternate, CreateEntry_of_full hn] at h
        cases h
      · intro hroom
        simp only [List.length_cons, Nat.cast_add, Nat.cast_one] at hroom
        omega
    | some id =>
      have hc := CreateEntry_of_nextId hn s.startAt s.projectName s.description
      have hl := lastId_after_create hn s.startAt s.projectName s.description
      have hid := (nextId_eq_some hn).2
      have hrun1 : running ⟨d.rows ++ [⟨id, s.projectName, s.startAt, none, s.description⟩], id⟩ =
          [⟨id, s.projectName, s.startAt, none, s.description⟩] := by
        rw [running_append, hidle]
        rfl
      have hrun2 : running (StopEntry
          ⟨d.rows ++ [⟨id, s.projectName, s.startAt, none, s.description⟩], id⟩ s.stopAt id).1 =
          [] := by
        rw [running_stop, hrun1]
        simp
      obtain ⟨ih1, ih2⟩ := ih _ hrun2
      refine ⟨?_, ?_⟩
      · intro rd h
        simp only [alternate, hc, List.mem_cons] at h
        rcases h with rfl | h
        · exact ⟨GetRunningEntry_of_single hrun1, GetRunningEntry_of_none hrun2⟩
        · exact ih1 rd h
      · intro hroom
        simp only [List.length_cons, Nat.cast_add, Nat.cast_one] at hroom
        simp only [alternate, hc, List.length_cons]
        rw [ih2]
        rw [lastId_stop, hl]
        omega

/-! ## The properties of the store -/

/-- C1 (as stated, refuted): `CreateEntry` called on a store whose only entry is
still running succeeds and leaves two running entries, so the
single-running-entry invariant is not preserved by `CreateEntry`. -/
theorem single_running_create_counterexample :
    atMostOneRunning (CreateEntry Database.fresh c0900 "tmpo" "").1 ∧
      ¬ atMostOneRunning
        (CreateEntry (CreateEntry Database.fresh c0900 "tmpo" "").1 c0905 "other" "").1 := by
  decide

/-- C1 (amended): from a store with at most one running entry, `StopEntry` with
any id again leaves at most one running entry; `CreateEntry` does so when no
entry is running before the call; `CreateEntry` makes no check of its own, and
every successful call adds exactly one running entry to those already there. -/
theorem single_running_preserved (d : Database) (h : atMostOneRunning d) :
    (∀ now id, atMostOneRunning (StopEntry d now id).1) ∧
      (∀ now p desc, (∀ r ∈ d.rows, r.end_time ≠ none) →
        atMostOneRunning (CreateEntry d now p desc).1) ∧
      (∀ now p desc d1 e, CreateEntry d now p desc = (d1, .ok e) →
        (running d1).length = (running d).length + 1) := by
  refine ⟨?_, ?_, ?_⟩
  · intro now id
    simp only [atMostOneRunning, running_stop] at h ⊢
    exact le_trans (List.length_filter_le _ _) h
  · intro now p desc hidle
    have hnil := running_eq_nil.2 hidle
    cases hn : nextId d with
    | none => rw [CreateEntry_of_full hn]; exact h
    | some id =>
      rw [CreateEntry_of_nextId hn]
      simp [atMostOneRunning, running_append, hnil]
  · intro now p desc d1 e hc
    obtain ⟨id, _, hd1, _⟩ := CreateEntry_ok_iff.1 hc
    subst hd1
    simp [running_append]

/-- C1 (witness): the store holding one running entry satisfies the invariant and
keeps it when that entry is stopped. -/
theorem single_running_preserved_witness :
    atMostOneRunning (CreateEntry Database.fresh c0900 "tmpo" "").1 ∧
      atMostOneRunning (StopEntry (CreateEntry Database.fresh c0900 "tmpo" "").1 c0910 1).1 :=
  ⟨by decide,
    (single_running_preserved (CreateEntry Database.fresh c0900 "tmpo" "").1
      (by decide)).1 c0910 1⟩

/-- C2 (the code at the failing input): two entries are started forty minutes
apart in the zone America/New_York, one before and one after the clocks go back
on 1 November 2026, and neither is stopped.  Both rows are running and entry 2
was started at the later instant, but the stored text of entry 1
(`2026-11-01 01:30:00-04:00`) sorts above that of entry 2
(`2026-11-01 01:10:00-05:00`), so `GetRunningEntry` returns entry 1: the most
recent start does not win. -/
theorem GetRunningEntry_across_offset_change :
    running (CreateEntry (CreateEntry Database.fresh edt0130 "a" "").1 est0110 "b" "").1 =
        [⟨1, "a", edt0130, none, ""⟩, ⟨2, "b", est0110, none, ""⟩] ∧
      edt0130.instant < est0110.instant ∧
      GetRunningEntry (CreateEntry (CreateEntry Database.fresh edt0130 "a" "").1 est0110 "b" "").1 =
        .ok (some ⟨1, "a", edt0130, none, ""⟩) := by
  decide

/-- C3: when `CreateEntry(p, d)` succeeds and returns `e`, `GetEntry(e.ID)` on the
resulting store returns exactly `e`, whose `end_time` is absent, whose project
name and description are `p` and `d`, and whose `start_time` is the clock value
of the creation. -/
theorem create_then_read (d : Database) (now : Time) (p desc : String) (d1 : Database)
    (e : TimeEntry) (h : CreateEntry d now p desc = (d1, .ok e)) :
    GetEntry d1 e.ID = .ok e ∧ e.EndTime = none ∧ e.ProjectName = p ∧
      e.Description = desc ∧ e.StartTime = now := by
  obtain ⟨id, hn, hd1, he⟩ := CreateEntry_ok_iff.1 h
  have hc := CreateEntry_of_nextId hn now p desc
  have hget : GetEntry (CreateEntry d now p desc).1 id = (CreateEntry d now p desc).2 := by
    simp only [CreateEntry, hn]
  rw [h] at hget
  subst he
  exact ⟨hget, rfl, rfl, rfl, rfl⟩

/-- C3 (witness): the first entry created in a new store. -/
theorem create_then_read_witness :
    CreateEntry Database.fresh c0900 "proj" "desc" =
        (⟨[⟨1, "proj", c0900, none, "desc"⟩], 1⟩, .ok ⟨1, "proj", c0900, none, "desc"⟩) ∧
      GetEntry ⟨[⟨1, "proj", c0900, none, "desc"⟩], 1⟩ 1 =
        .ok ⟨1, "proj", c0900, none, "desc"⟩ :=
  ⟨by decide,
    (create_then_read Database.fresh c0900 "proj" "desc"
      ⟨[⟨1, "proj", c0900, none, "desc"⟩], 1⟩ ⟨1, "proj", c0900, none, "desc"⟩
      (by decide)).1⟩

/-- C4: for an entry that `CreateEntry` created at clock value `t0`, after any
further lifecycle operations, `StopEntry(id)` at a clock value `t1` with
`t0 ≤ t1` succeeds and `GetEntry(id)` then returns the record read before the
stop with `end_time` set to `t1`: `end_time` is present and not earlier than
`start_time`, and id, project name, start time and description are unchanged
(they are still the ones of the creation). -/
theorem stop_then_read (d0 : Database) (t0 : Time) (p desc : String) (d1 : Database)
    (e : TimeEntry) (hcreate : CreateEntry d0 t0 p desc = (d1, .ok e)) (ops : List Op)
    (t1 : Time) (hclock : t0.instant ≤ t1.instant) :
    (StopEntry (run d1 ops) t1 e.ID).2 = none ∧
      GetEntry (StopEntry (run d1 ops) t1 e.ID).1 e.ID = .ok ⟨e.ID, p, t0, some t1, desc⟩ ∧
      (∃ before, GetEntry (run d1 ops) e.ID = .ok before ∧ before.ID = e.ID ∧
        before.ProjectName = p ∧ before.StartTime = t0 ∧ before.Description = desc) ∧
      (∀ after, GetEntry (StopEntry (run d1 ops) t1 e.ID).1 e.ID = .ok after →
        ∃ t, after.EndTime = some t ∧ after.StartTime.instant ≤ t.instant) := by
  obtain ⟨hget, _, hp, hd, ht⟩ := create_then_read d0 t0 p desc d1 e hcreate
  obtain ⟨b, hb, h1, h2, h3, h4⟩ := GetEntry_run hget ops
  have hafter : GetEntry (StopEntry (run d1 ops) t1 e.ID).1 e.ID =
      .ok ⟨e.ID, p, t0, some t1, desc⟩ := by
    rw [GetEntry_stop_same hb t1, h1, h2, h3, h4, hp, hd, ht]
  refine ⟨rfl, hafter, ⟨b, hb, h1, h2.trans hp, h3.trans ht, h4.trans hd⟩, ?_⟩
  intro after ha
  rw [hafter] at ha
  cases ha
  exact ⟨t1, rfl, hclock⟩

/-- C4 (witness): an entry created at 09:00, followed by another start and stop,
is stopped at 09:15. -/
theorem stop_then_read_witness :
    CreateEntry Database.fresh c0900 "proj" "desc" =
        (⟨[⟨1, "proj", c0900, none, "desc"⟩], 1⟩, .ok ⟨1, "proj", c0900, none, "desc"⟩) ∧
      c0900.instant ≤ c0915.instant ∧
      GetEntry (StopEntry (run ⟨[⟨1, "proj", c0900, none, "desc"⟩], 1⟩
        [.create c0905 "x" "y", .stop c0910 2]) c0915 1).1 1 =
          .ok ⟨1, "proj", c0900, some c0915, "desc"⟩ :=
  ⟨by decide, by decide,
    (stop_then_read Database.fresh c0900 "proj" "desc"
      ⟨[⟨1, "proj", c0900, none, "desc"⟩], 1⟩ ⟨1, "proj", c0900, none, "desc"⟩ (by decide)
      [.create c0905 "x" "y", .stop c0910 2] c0915 (by decide)).2.1⟩

/-- C6: `StopEntry` with an id that matches no row returns a nil error and
leaves the store exactly as it was. -/
theorem StopEntry_missing_id_noop (d : Database) (now : Time) (id : Int)
    (h : ∀ r ∈ d.rows, r.id ≠ id) :
    StopEntry d now id = (d, none) := by
  simp only [StopEntry, rows_stop_of_absent h]

/-- C6 (witness): stopping id 7 in a store that holds only id 1. -/
theorem StopEntry_missing_id_noop_witness :
    (∀ r ∈ [(⟨1, "a", c0900, none, ""⟩ : Row)], r.id ≠ 7) ∧
      StopEntry ⟨[⟨1, "a", c0900, none, ""⟩], 1⟩ c0905 7 =
        (⟨[⟨1, "a", c0900, none, ""⟩], 1⟩, none) :=
  ⟨by decide, StopEntry_missing_id_noop ⟨[⟨1, "a", c0900, none, ""⟩], 1⟩ c0905 7 (by decide)⟩

/-- C7 (as stated, refuted): an entry created at 09:00 and stopped at 09:05 has
`end_time` 09:05; a second `StopEntry` on it at 09:10 replaces that by 09:10. -/
theorem end_time_overwritten_counterexample :
    GetEntry (StopEntry (CreateEntry Database.fresh c0900 "tmpo" "").1 c0905 1).1 1 =
        .ok ⟨1, "tmpo", c0900, some c0905, ""⟩ ∧
      GetEntry (StopEntry (StopEntry (CreateEntry Database.fresh c0900 "tmpo" "").1
          c0905 1).1 c0910 1).1 1 =
        .ok ⟨1, "tmpo", c0900, some c0910, ""⟩ ∧
      c0910 ≠ c0905 := by
  decide

/-- C7 (amended): an entry of the store (in particular one whose `end_time` is
already present) is read back unchanged after `CreateEntry` and after
`StopEntry` with a different id; `StopEntry` with the entry's own id replaces
its `end_time` by the clock value of that call, whether or not it was set, and
changes nothing else of the entry. -/
theorem end_time_frame (d : Database) (id : Int) (e : TimeEntry)
    (h : GetEntry d id = .ok e) :
    (∀ now p desc, GetEntry (CreateEntry d now p desc).1 id = .ok e) ∧
      (∀ now k, k ≠ id → GetEntry (StopEntry d now k).1 id = .ok e) ∧
      (∀ now, GetEntry (StopEntry d now id).1 id = .ok { e with EndTime := some now }) :=
  ⟨fun now p desc => GetEntry_create h now p desc,
    fun now _ hk => (GetEntry_stop_other hk now).trans h,
    fun now => GetEntry_stop_same h now⟩

/-- C7 (witness): a stopped entry, re-read after a stop of another id. -/
theorem end_time_frame_witness :
    GetEntry ⟨[⟨1, "a", c0900, some c0905, ""⟩, ⟨2, "b", c0910, none, "x"⟩], 2⟩ 1 =
        .ok ⟨1, "a", c0900, some c0905, ""⟩ ∧
      ∀ now k, k ≠ 1 →
        GetEntry (StopEntry
          ⟨[⟨1, "a", c0900, some c0905, ""⟩, ⟨2, "b", c0910, none, "x"⟩], 2⟩ now k).1 1 =
            .ok ⟨1, "a", c0900, some c0905, ""⟩ :=
  ⟨by decide,
    (end_time_frame ⟨[⟨1, "a", c0900, some c0905, ""⟩, ⟨2, "b", c0910, none, "x"⟩], 2⟩ 1
      ⟨1, "a", c0900, some c0905, ""⟩ (by decide)).2.1⟩

/-- C8: starting from an empty store with room for N more ids, N calls of
`CreateEntry` all succeed, and stopping the N returned ids in any order leaves
exactly N entries, each with `end_time` present, after which `GetRunningEntry`
returns nil without error. -/
theorem create_n_stop_n (d : Database) (ps : List (Time × String × String))
    (hempty : d.rows = []) (hroom : lastId d + ps.length ≤ maxInt64) :
    ∃ d1 es, createAll d ps = .ok (d1, es) ∧ es.length = ps.length ∧
      ∀ stops : List (Time × Int), (stops.map Prod.snd).Perm (es.map TimeEntry.ID) →
        (stopAll d1 stops).rows.length = ps.length ∧
          (∀ r ∈ (stopAll d1 stops).rows, r.end_time ≠ none) ∧
          GetRunningEntry (stopAll d1 stops) = .ok none := by
  obtain ⟨d1, es, h1, h2, h3, h4, _, _⟩ := createAll_spec ps d hroom
  refine ⟨d1, es, h1, h2, ?_⟩
  intro stops hperm
  have hstopped : ∀ r ∈ (stopAll d1 stops).rows, r.end_time ≠ none := by
    intro q hq
    obtain ⟨hq1, r, hr, hid, _⟩ := stopAll_stopped stops d1 q hq
    apply hq1
    rcases h4 r hr with h | h
    · rw [hempty] at h
      cases h
    · rw [← hid]
      exact hperm.mem_iff.2 h
  refine ⟨?_, hstopped, GetRunningEntry_of_none (running_eq_nil.2 hstopped)⟩
  rw [length_stopAll, h3, hempty]
  simp

/-- C8 (witness): two entries created in a new store and stopped in the reverse
order. -/
theorem create_n_stop_n_witness :
    Database.fresh.rows = [] ∧
      lastId Database.fresh +
          ([(c0900, "a", "x"), (c0905, "b", "y")] : List (Time × String × String)).length
        ≤ maxInt64 ∧
      ∃ d1 es, createAll Database.fresh [(c0900, "a", "x"), (c0905, "b", "y")] = .ok (d1, es) ∧
        es.length =
          ([(c0900, "a", "x"), (c0905, "b", "y")] : List (Time × String × String)).length ∧
        ∀ stops : List (Time × Int), (stops.map Prod.snd).Perm (es.map TimeEntry.ID) →
          (stopAll d1 stops).rows.length =
              ([(c0900, "a", "x"), (c0905, "b", "y")] : List (Time × String × String)).length ∧
            (∀ r ∈ (stopAll d1 stops).rows, r.end_time ≠ none) ∧
            GetRunningEntry (stopAll d1 stops) = .ok none :=
  ⟨rfl, by decide,
    create_n_stop_n Database.fresh [(c0900, "a", "x"), (c0905, "b", "y")] rfl (by decide)⟩

/-- C9: starting from a store with no running entry, in every strictly
alternating sequence of starts and matching stops, `GetRunningEntry` returns the
entry just created right after each start and nil right after the matching
stop; and while ids are left every start of the sequence succeeds, so that
every pair of the sequence is observed. -/
theorem strict_alternation (d : Database) (ss : List Session)
    (hidle : ∀ r ∈ d.rows, r.end_time ≠ none) :
    (∀ rd ∈ alternate d ss, rd.afterStart = .ok (some rd.started) ∧ rd.afterStop = .ok none) ∧
      (lastId d + ss.length ≤ maxInt64 → (alternate d ss).length = ss.length) :=
  alternate_spec ss d (running_eq_nil.2 hidle)

/-- C9 (witness): two start/stop pairs on a new store. -/
theorem strict_alternation_witness :
    (∀ r ∈ Database.fresh.rows, r.end_time ≠ none) ∧
      alternate Database.fresh [⟨c0900, "a", "", c0905⟩, ⟨c0910, "b", "x", c0915⟩] =
        [⟨⟨1, "a", c0900, none, ""⟩, .ok (some ⟨1, "a", c0900, none, ""⟩), .ok none⟩,
          ⟨⟨2, "b", c0910, none, "x"⟩, .ok (some ⟨2, "b", c0910, none, "x"⟩), .ok none⟩] ∧
      ∀ rd ∈ alternate Database.fresh [⟨c0900, "a", "", c0905⟩, ⟨c0910, "b", "x", c0915⟩],
        rd.afterStart = .ok (some rd.started) ∧ rd.afterStop = .ok none :=
  ⟨by decide, by decide,
    (strict_alternation Database.fresh [⟨c0900, "a", "", c0905⟩, ⟨c0910, "b", "x", c0915⟩]
      (by decide)).1⟩

/-- C10 (as stated, refuted): on a machine where every call succeeds,
`Initialize` creates the data directory with mode 0755, which grants read and
execute to group and others. -/
theorem Initialize_mode_counterexample :
    SysCall.MkdirAll "/home/dev/.tmpo" 0o755 ∈ (Initialize Host.plain).1 ∧
      (0o755 : Nat) &&& 0o077 ≠ 0 := by
  decide

/-- C10 (amended): whenever the home directory resolves, the first call of
`Initialize` creates `<home>/.tmpo`, and the mode of every directory creation
it requests is 0755: every bit for the owner, read and execute but not write for
group and others. -/
theorem Initialize_requests_0755 (h : Host) (home : String)
    (hhome : h.userHomeDir = .ok home) :
    (Initialize h).1.head? = some (.MkdirAll (h.join home ".tmpo") 0o755) ∧
      ∀ path perm, SysCall.MkdirAll path perm ∈ (Initialize h).1 →
        path = h.join home ".tmpo" ∧ perm = 0o755 ∧ perm &&& 0o700 = 0o700 ∧
          perm &&& 0o077 = 0o055 ∧ perm &&& 0o022 = 0 := by
  have hmode : (0o755 : Nat) &&& 0o700 = 0o700 ∧ (0o755 : Nat) &&& 0o077 = 0o055 ∧
      (0o755 : Nat) &&& 0o022 = 0 := by decide
  unfold Initialize
  rw [hhome]
  dsimp only
  cases h.mkdirAll (h.join home ".tmpo") 0o755 with
  | some err =>
    refine ⟨rfl, ?_⟩
    intro path perm hmem
    simp only [List.mem_singleton, SysCall.MkdirAll.injEq] at hmem
    obtain ⟨rfl, rfl⟩ := hmem
    exact ⟨rfl, rfl, hmode⟩
  | none =>
    dsimp only
    cases h.sqlOpen "sqlite3" (h.join (h.join home ".tmpo") "tmpo.db") with
    | some err =>
      refine ⟨rfl, ?_⟩
      intro path perm hmem
      simp only [List.mem_cons, SysCall.MkdirAll.injEq, List.not_mem_nil, reduceCtorEq,
        or_false] at hmem
      obtain ⟨rfl, rfl⟩ := hmem
      exact ⟨rfl, rfl, hmode⟩
    | none =>
      dsimp only
      cases h.createTable with
      | some err =>
        refine ⟨rfl, ?_⟩
        intro path perm hmem
        simp only [List.mem_cons, SysCall.MkdirAll.injEq, List.not_mem_nil, reduceCtorEq,
          or_false] at hmem
        obtain ⟨rfl, rfl⟩ := hmem
        exact ⟨rfl, rfl, hmode⟩
      | none =>
        refine ⟨rfl, ?_⟩
        intro path perm hmem
        simp only [List.mem_cons, SysCall.MkdirAll.injEq, List.not_mem_nil, reduceCtorEq,
          or_false] at hmem
        obtain ⟨rfl, rfl⟩ := hmem
        exact ⟨rfl, rfl, hmode⟩

/-- C10 (witness): the machine on which every call succeeds. -/
theorem Initialize_requests_0755_witness :
    Host.plain.userHomeDir = .ok "/home/dev" ∧
      (Initialize Host.plain).1.head? =
        some (.MkdirAll (Host.plain.join "/home/dev" ".tmpo") 0o755) :=
  ⟨rfl, (Initialize_requests_0755 Host.plain "/home/dev" rfl).1⟩

end Storage
